import Mathlib

set_option maxHeartbeats 1000000

namespace RAG

/-! Shallow embedding of the retrieval-augmented-generation pipeline.

Python strings are Lean `String`; Python dicts with string keys and string
values are association lists compared extensionally (Python dict equality
compares key-value contents, not insertion order).  Distance scores coming
back from the vector index are rationals.  Fallible external effects
(embedding, index persistence, file removal) are modelled by explicit
Boolean success parameters, and the persisted on-disk index by an explicit
`disk` component of the service state. -/

/-- A Python dict with string keys and string values, as an association list
in insertion order. -/
abbrev Metadata := List (String × String)

/-- Python `d.get(k)` (default `None`). -/
def dictGet (m : Metadata) (k : String) : Option String :=
  (m.find? (fun p => p.1 == k)).map (fun p => p.2)

/-- Python `d.get(k, dflt)`. -/
def dictGetD (m : Metadata) (k dflt : String) : String :=
  (dictGet m k).getD dflt

/-- Python `d[k] = v`: update the value in place when the key is present
(keeping its position), otherwise append the new binding at the end
(Python dicts preserve insertion order). -/
def dictInsert (m : Metadata) (k v : String) : Metadata :=
  if (m.find? (fun p => p.1 == k)).isSome then
    m.map (fun p => if p.1 == k then (k, v) else p)
  else m ++ [(k, v)]

/-- Python dict equality `m1 == m2`: the same key-value contents. -/
def dictEqB (m1 m2 : Metadata) : Bool :=
  (m1.map Prod.fst ++ m2.map Prod.fst).all (fun k => dictGet m1 k == dictGet m2 k)

/-- A langchain `Document`: page content plus a metadata dict. -/
structure Doc where
  content : String
  metadata : Metadata
deriving DecidableEq

/-- Python `==` on langchain Documents: pydantic models compare field by
field, and the metadata dicts compare extensionally. -/
def docEq (d1 d2 : Doc) : Bool :=
  d1.content == d2.content && dictEqB d1.metadata d2.metadata

/-- Python `lst.index(x)`: index of the first element comparing `==` to `x`
(the source only calls it when `x` occurs in `lst`). -/
def pyIndex (l : List Doc) (d : Doc) : Nat := l.findIdx (fun x => docEq x d)

/-- Python `s.strip()`: remove leading and trailing whitespace. -/
def pyStrip (s : String) : String :=
  ⟨((s.data.dropWhile Char.isWhitespace).reverse.dropWhile Char.isWhitespace).reverse⟩

/-- `doc.metadata.get('source_file', 'Unknown')`, as used throughout
`vectordb_service.py` and for context formatting. -/
def sourceOf (d : Doc) : String := dictGetD d.metadata "source_file" "Unknown"

/- ---------------------------------------------------------------------
`services/vectordb_service.py` : class VectorDBService
--------------------------------------------------------------------- -/

/-- State of a `VectorDBService`: `vector_store` is the in-memory FAISS index
(`none` when `self.vector_store is None`; otherwise the docstore documents
in insertion order), `disk` is the index persisted at `vector_store_path`. -/
structure VDB where
  vector_store : Option (List Doc)
  disk : Option (List Doc)
deriving DecidableEq

/-- Accumulate a source filename in first-occurrence order, as iterating the
docstore while filling a Python dict keyed by source does. -/
def insertUnique (acc : List String) (s : String) : List String :=
  if s ∈ acc then acc else acc ++ [s]

/-- The distinct `source_file` values of the docstore documents, in
first-occurrence order. -/
def sourcesOf (docs : List Doc) : List String :=
  docs.foldl (fun acc d => insertUnique acc (sourceOf d)) []

/-- One entry of `get_all_documents`: aggregate view of one source file. -/
structure DocumentSummary where
  filename : String
  chunk_count : Nat
  total_characters : Nat
deriving DecidableEq

/-- `VectorDBService.get_all_documents`: group the docstore documents by
`source_file` (missing key counts as "Unknown"), in first-occurrence order,
with per-source chunk count and character total; `[]` when no store. -/
def get_all_documents (db : VDB) : List DocumentSummary :=
  match db.vector_store with
  | none => []
  | some docs =>
      (sourcesOf docs).map (fun s =>
        { filename := s
          chunk_count := (docs.filter (fun d => sourceOf d == s)).length
          total_characters :=
            ((docs.filter (fun d => sourceOf d == s)).map
              (fun d => d.content.length)).sum })

/-- Result dict of `get_vector_store_info` (the purely informational keys
`index_exists` and `embeddings_model` of the "active" branch are omitted). -/
structure StoreInfo where
  status : String
  document_count : Nat
  total_chunks : Nat
deriving DecidableEq

/-- `VectorDBService.get_vector_store_info`. -/
def get_vector_store_info (db : VDB) : StoreInfo :=
  match db.vector_store with
  | none => { status := "empty", document_count := 0, total_chunks := 0 }
  | some docs =>
      { status := "active"
        document_count := (sourcesOf docs).length
        total_chunks := docs.length }

/-- `VectorDBService.save_documents`.  `embedOk` models whether
`FAISS.from_documents` (embedding the new chunks) succeeds, `saveOk` whether
`save_local` succeeds.  Note the order in the source: the new documents are
merged into `self.vector_store` (or a fresh store is assigned to it) before
`save_local` runs; a `save_local` failure is caught and turned into a
`False` return with the in-memory merge already done. -/
def save_documents (embedOk saveOk : Bool) (db : VDB) (documents : List Doc) :
    VDB × Bool :=
  if documents.isEmpty then (db, false)
  else if !embedOk then (db, false)
  else
    let merged := match db.vector_store with
      | none => documents
      | some old => old ++ documents
    let db1 : VDB := { db with vector_store := some merged }
    if saveOk then ({ db1 with disk := some merged }, true)
    else (db1, false)

/-- `VectorDBService.search_with_scores`: `searchFn` models
`similarity_search_with_score(query, k)` on the current index, returning
either scored results or a raised exception (`Except.error`), which the
source catches and turns into `[]`. -/
def search_with_scores (db : VDB)
    (searchFn : List Doc → Except String (List (Doc × ℚ))) : List (Doc × ℚ) :=
  match db.vector_store with
  | none => []
  | some docs =>
      match searchFn docs with
      | Except.error _ => []
      | Except.ok results => results

/-- `VectorDBService.search_similar_documents`: same shape without scores. -/
def search_similar_documents (db : VDB)
    (searchFn : List Doc → Except String (List Doc)) : List Doc :=
  match db.vector_store with
  | none => []
  | some docs =>
      match searchFn docs with
      | Except.error _ => []
      | Except.ok results => results

/-- `VectorDBService.clear_vector_store`: remove the persisted files, then
set `self.vector_store = None`.  `clearOk` models whether file removal
succeeds; on failure the exception is caught, the in-memory reference is
left as it was, and `False` is returned. -/
def clear_vector_store (clearOk : Bool) (db : VDB) : VDB × Bool :=
  if clearOk then ({ vector_store := none, disk := none }, true)
  else (db, false)

/-- `VectorDBService.delete_documents_by_source`.  `rebuildOk` models whether
`FAISS.from_documents(remaining_docs, ...)` succeeds, `saveOk` whether the
subsequent `save_local` succeeds, `clearOk` whether `clear_vector_store`
succeeds when no documents remain.  As in the source, the rebuilt index is
assigned to `self.vector_store` before `save_local` runs; a `save_local`
failure is caught and becomes a `False` return with the rebuilt index left
as the active in-memory one. -/
def delete_documents_by_source (rebuildOk saveOk clearOk : Bool) (db : VDB)
    (source_filename : String) : VDB × Bool :=
  match db.vector_store with
  | none => (db, false)
  | some docs =>
      let remaining := docs.filter
        (fun d => !(dictGet d.metadata "source_file" == some source_filename))
      let deleted_count := docs.length - remaining.length
      if deleted_count = 0 then (db, false)
      else if remaining.isEmpty then clear_vector_store clearOk db
      else if !rebuildOk then (db, false)
      else
        let db1 : VDB := { db with vector_store := some remaining }
        if saveOk then ({ db1 with disk := some remaining }, true)
        else (db1, false)

/- ---------------------------------------------------------------------
`services/document_loader_service.py` : process_and_save_vector_store
--------------------------------------------------------------------- -/

/-- The body of the metadata loop for the chunk at position `j`: set
`chunk.metadata["source_file"] = filename`, then set
`chunk.metadata["chunk_id"] = filename + "_" + str(chunks.index(chunk))`,
where `chunks` is the mutable list holding the partially stamped chunks. -/
def addMetaStep (filename : String) (st : List Doc) (j : Nat) : List Doc :=
  match st[j]? with
  | none => st
  | some d =>
      let d1 : Doc := { d with metadata := dictInsert d.metadata "source_file" filename }
      let st1 := st.set j d1
      let idx := pyIndex st1 d1
      st1.set j
        { d1 with metadata := dictInsert d1.metadata "chunk_id" (filename ++ "_" ++ toString idx) }

/-- The `for chunk in chunks` metadata loop of `process_and_save_vector_store`,
mutating the chunk list position by position. -/
def addMeta (filename : String) (chunks : List Doc) : List Doc :=
  (List.range chunks.length).foldl (addMetaStep filename) chunks

/-- `DocumentLoaderService.process_and_save_vector_store`, with the splitter
output `chunks` passed in (the text splitter itself is external). -/
def process_and_save_vector_store (embedOk saveOk : Bool) (db : VDB)
    (chunks : List Doc) (filename : String) : VDB × Bool :=
  if chunks.isEmpty then (db, false)
  else save_documents embedOk saveOk db (addMeta filename chunks)

/- ---------------------------------------------------------------------
`app/agents/conversation_agent/ConversationAgent.py`
--------------------------------------------------------------------- -/

/-- The per-request `ConversationState` TypedDict; absent keys are `none`. -/
structure ConversationState where
  question : String
  use_rag : Bool := true
  error : Option String := none
  context : Option String := none
  relevant_documents : Option (List Doc) := none
  enhanced_prompt : Option String := none
  response : Option String := none
  processing_time : Option ℚ := none
deriving DecidableEq

/-- `ConversationAgent.parse_question_input` (`elapsed` stands for the
measured wall-clock processing time recorded on success). -/
def parse_question_input (elapsed : ℚ) (state : ConversationState) :
    ConversationState :=
  if state.question = "" ∨ pyStrip state.question = "" then
    { state with error := some "Invalid question: empty or whitespace only" }
  else if state.question.length > 10000 then
    { state with error := some "Question too long (max 10,000 characters)" }
  else
    { state with processing_time := some elapsed }

/-- The similarity threshold of `retrieve_context` (FAISS distance scores:
lower is more similar). -/
def similarity_threshold : ℚ := 2

/-- The filtering comprehension of `retrieve_context`:
`[doc for doc, score in results_with_scores if score < similarity_threshold]`. -/
def relevantDocs (results_with_scores : List (Doc × ℚ)) : List Doc :=
  (results_with_scores.filter (fun r => r.2 < similarity_threshold)).map
    (fun r => r.1)

/-- Python `sep.join(parts)`. -/
def pyJoin (sep : String) : List String → String
  | [] => ""
  | x :: xs =>
      match xs with
      | [] => x
      | _ :: _ => x ++ sep ++ pyJoin sep xs

/-- `_create_context_from_documents` (identical in `ConversationAgent` and
`ConversationService`): format each document, 1-indexed by
`enumerate(documents, 1)`, as a bracketed source header followed by the
stripped page content, then join with a blank line. -/
def create_context_from_documents (documents : List Doc) : String :=
  pyJoin "\n\n"
    ((documents.enumFrom 1).map (fun p =>
      "[Document " ++ toString p.1 ++ " - " ++ sourceOf p.2 ++ "]\n"
        ++ pyStrip p.2.content))

/-- `ConversationAgent.retrieve_context`, with the scored search results of
`search_with_scores(question, k=6)` passed in (`hasVectordb` models
`self.vectordb_service` being non-`None`). -/
def retrieve_context (results_with_scores : List (Doc × ℚ)) (hasVectordb : Bool)
    (state : ConversationState) : ConversationState :=
  if state.error.isSome then state
  else if state.use_rag && hasVectordb then
    let relevant_docs := relevantDocs results_with_scores
    if !relevant_docs.isEmpty then
      { state with
          relevant_documents := some relevant_docs
          context := some (create_context_from_documents relevant_docs) }
    else
      { state with context := some "" }
  else
    { state with context := some "" }

/-- The possible outcomes of `await self.llm_service.model.ainvoke(...)`:
an object carrying a `.content` attribute (possibly `None`), a plain string,
the bare `None` object, any other object (with its `str(...)` rendering), or
a raised exception. -/
inductive LLMOutput where
  | message (content : Option String)
  | text (s : String)
  | noneObj
  | other (rendered : String)
  | raises (e : String)
deriving DecidableEq

/-- The fixed apology used when the normalized model output is empty. -/
def apologyText : String :=
  "I apologize, but I couldn\x27t generate a proper response. Please try asking your question again."

/-- The tail of `generate_response` after `response_text` is obtained:
strip it, and store either the apology (when it is empty) or the stripped
text as the response. -/
def normalizeResponse (state : ConversationState) (response_text : String) :
    ConversationState :=
  if pyStrip response_text = "" then { state with response := some apologyText }
  else { state with response := some (pyStrip response_text) }

/-- The message of the `AttributeError` raised by `None.strip()`. -/
def noneStripError : String :=
  "\x27NoneType\x27 object has no attribute \x27strip\x27"

/-- `ConversationAgent.generate_response`.  A bare `None` result reaches the
final `str(response)` branch and is rendered as the string "None"; a message
whose `.content` is `None` makes `response_text.strip()` raise an
`AttributeError`, which the `except` clause converts into an `error`. -/
def generate_response (out : LLMOutput) (state : ConversationState) :
    ConversationState :=
  if state.error.isSome then state
  else
    match out with
    | LLMOutput.raises e =>
        { state with error := some ("Error generating response: " ++ e) }
    | LLMOutput.message none =>
        { state with error := some ("Error generating response: " ++ noneStripError) }
    | LLMOutput.message (some c) => normalizeResponse state c
    | LLMOutput.text s => normalizeResponse state s
    | LLMOutput.noneObj => normalizeResponse state "None"
    | LLMOutput.other rendered => normalizeResponse state rendered

/- ---------------------------------------------------------------------
Laws of the dict model
--------------------------------------------------------------------- -/

theorem dictGet_map_update (m : Metadata) (k v : String) :
    dictGet (m.map (fun p => if p.1 == k then (k, v) else p)) k
      = if (m.find? (fun p => p.1 == k)).isSome then some v else dictGet m k := by
  induction m with
  | nil => simp [dictGet]
  | cons q m ih =>
      by_cases hq : q.1 == k
      · simp [dictGet, List.find?, hq]
      · simp only [List.map_cons, if_neg hq]
        simp only [dictGet, List.find?, hq] at ih ⊢
        simpa [hq] using ih

theorem dictGet_map_update_other (m : Metadata) (k v k' : String) (hk : k' ≠ k) :
    dictGet (m.map (fun p => if p.1 == k then (k, v) else p)) k' = dictGet m k' := by
  have hkk' : (k == k') = false := by
    simp only [beq_eq_false_iff_ne, ne_eq]
    exact fun he => hk he.symm
  induction m with
  | nil => simp [dictGet]
  | cons q m ih =>
      by_cases hq : q.1 == k
      · have hq' : (q.1 == k') = false := by
          have : q.1 = k := by simpa using hq
          rw [this]; exact hkk'
        simp only [List.map_cons, if_pos hq]
        simp only [dictGet, List.find?, hq', hkk', cond_false] at ih ⊢
        exact ih
      · by_cases hq' : q.1 == k'
        · simp [dictGet, List.find?, hq, hq']
        · simp only [List.map_cons, if_neg (by simp [hq] : ¬ ((q.1 == k) = true))]
          simp only [dictGet, List.find?, hq', cond_false] at ih ⊢
          exact ih

theorem dictGet_append_single (m : Metadata) (k v k' : String) :
    dictGet (m ++ [(k, v)]) k'
      = if (m.find? (fun p => p.1 == k')).isSome then dictGet m k'
        else if k == k' then some v else none := by
  induction m with
  | nil =>
      by_cases hkk : k == k' <;> simp [dictGet, List.find?, hkk]
  | cons q m ih =>
      by_cases hq : q.1 == k'
      · simp [dictGet, List.find?, hq]
      · simp only [dictGet, List.cons_append, List.find?, hq, cond_false] at ih ⊢
        exact ih

theorem dictGet_dictInsert_self (m : Metadata) (k v : String) :
    dictGet (dictInsert m k v) k = some v := by
  unfold dictInsert
  by_cases h : (m.find? (fun p => p.1 == k)).isSome
  · rw [if_pos h, dictGet_map_update, if_pos h]
  · rw [if_neg h, dictGet_append_single, if_neg h, if_pos (by simp)]

theorem dictGet_dictInsert_other (m : Metadata) (k v k' : String) (hk : k' ≠ k) :
    dictGet (dictInsert m k v) k' = dictGet m k' := by
  unfold dictInsert
  by_cases h : (m.find? (fun p => p.1 == k)).isSome
  · rw [if_pos h]
    exact dictGet_map_update_other m k v k' hk
  · rw [if_neg h, dictGet_append_single]
    by_cases h' : (m.find? (fun p => p.1 == k')).isSome
    · rw [if_pos h']
    · rw [if_neg h', if_neg (by simp only [beq_iff_eq]; exact fun he => hk he.symm)]
      have hn : m.find? (fun p => p.1 == k') = none := Option.not_isSome_iff_eq_none.mp h'
      simp [dictGet, hn]

theorem dictGet_eq_none_of_not_mem (m : Metadata) (k : String)
    (h : k ∉ m.map Prod.fst) : dictGet m k = none := by
  have : m.find? (fun p => p.1 == k) = none := by
    rw [List.find?_eq_none]
    intro p hp
    simp only [beq_iff_eq]
    intro he
    exact h (List.mem_map.mpr ⟨p, hp, he⟩)
  simp [dictGet, this]

theorem dictEqB_ext (m1 m2 : Metadata) (h : dictEqB m1 m2 = true) (k : String) :
    dictGet m1 k = dictGet m2 k := by
  rw [dictEqB, List.all_eq_true] at h
  by_cases h1 : k ∈ m1.map Prod.fst
  · exact eq_of_beq (h k (List.mem_append.mpr (Or.inl h1)))
  · by_cases h2 : k ∈ m2.map Prod.fst
    · exact eq_of_beq (h k (List.mem_append.mpr (Or.inr h2)))
    · rw [dictGet_eq_none_of_not_mem m1 k h1, dictGet_eq_none_of_not_mem m2 k h2]

theorem dictEqB_eq_false (m1 m2 : Metadata) (k : String)
    (h : dictGet m1 k ≠ dictGet m2 k) : dictEqB m1 m2 = false := by
  cases hb : dictEqB m1 m2 with
  | false => rfl
  | true => exact absurd (dictEqB_ext m1 m2 hb k) h

theorem dictEqB_refl (m : Metadata) : dictEqB m m = true := by
  simp [dictEqB, List.all_eq_true]

theorem docEq_refl (d : Doc) : docEq d d = true := by
  simp [docEq, dictEqB_refl]

theorem docEq_eq_false (d1 d2 : Doc) (k : String)
    (h : dictGet d1.metadata k ≠ dictGet d2.metadata k) : docEq d1 d2 = false := by
  simp [docEq, dictEqB_eq_false d1.metadata d2.metadata k h]

/- ---------------------------------------------------------------------
C3 : the similarity-threshold filter of retrieve_context
--------------------------------------------------------------------- -/

/-- C3: for every sequence of scored search results, the retrieval step keeps
exactly the results whose distance score is strictly below the similarity
threshold (a result with score exactly at the threshold is excluded),
preserving the input order, and on scores 0.5, 1.9, 2.0, 2.1 with threshold
2.0 exactly the first two survive. -/
theorem retrieval_filter_strict (results : List (Doc × ℚ)) (d1 d2 d3 d4 : Doc) :
    relevantDocs results
        = (results.filter (fun r => r.2 < similarity_threshold)).map (fun r => r.1)
      ∧ (relevantDocs results).Sublist (results.map (fun r => r.1))
      ∧ relevantDocs [(d3, similarity_threshold)] = []
      ∧ relevantDocs [(d1, 1/2), (d2, 19/10), (d3, 2), (d4, 21/10)] = [d1, d2] := by
  refine ⟨rfl, ?_, ?_, ?_⟩
  · exact (List.filter_sublist results).map (fun r => r.1)
  · simp [relevantDocs]
  · norm_num [relevantDocs, similarity_threshold]

/- ---------------------------------------------------------------------
C4 : context assembly
--------------------------------------------------------------------- -/

/-- One formatted context entry, with the content stripped as the source
does. -/
def assembleEntry (i : Nat) (d : Doc) : String :=
  "[Document " ++ toString i ++ " - " ++ sourceOf d ++ "]\n" ++ pyStrip d.content

/-- The assembly format described by the spec (with the content stripped),
written as a direct recursion for comparison with the code-derived
`create_context_from_documents`: entries numbered from `i`, joined by a
blank line. -/
def assembleSpecFrom : Nat → List Doc → String
  | _, [] => ""
  | i, d :: rest =>
      match rest with
      | [] => assembleEntry i d
      | _ :: _ => assembleEntry i d ++ "\n\n" ++ assembleSpecFrom (i + 1) rest

/-- Entries are 1-indexed in retrieval order. -/
def assembleSpec (docs : List Doc) : String := assembleSpecFrom 1 docs

theorem pyJoin_enumFrom (docs : List Doc) :
    ∀ n, pyJoin "\n\n" ((docs.enumFrom n).map (fun p => assembleEntry p.1 p.2))
      = assembleSpecFrom n docs := by
  induction docs with
  | nil => intro n; rfl
  | cons d rest ih =>
      intro n
      cases rest with
      | nil => rfl
      | cons d2 rest2 =>
          exact congrArg (fun t => assembleEntry n d ++ "\n\n" ++ t) (ih (n + 1))

/-- C4 (counterexample to the claim as stated): the assembler strips leading
and trailing whitespace from the chunk content, so for a single chunk whose
content carries a trailing blank the output is not exactly
`"[Document 1 - source]\n" ++ content`. -/
theorem assemble_strips_counterexample :
    create_context_from_documents [⟨"hi ", [("source_file", "s")]⟩]
        = "[Document 1 - s]\nhi"
      ∧ "[Document 1 - s]\nhi" ≠ "[Document 1 - s]\n" ++ "hi " := by
  constructor
  · rfl
  · decide

/-- C4 (amended): the assembler formats the chunks as
`"[Document i - source_file]"`, a newline, and the chunk content stripped of
leading and trailing whitespace, 1-indexed in retrieval order and joined by
a blank line; the empty sequence yields the empty string and a single chunk
yields exactly the one formatted entry. -/
theorem assemble_formats (docs : List Doc) :
    create_context_from_documents docs = assembleSpec docs
      ∧ create_context_from_documents [] = ""
      ∧ ∀ d, create_context_from_documents [d]
          = "[Document 1 - " ++ sourceOf d ++ "]\n" ++ pyStrip d.content := by
  refine ⟨?_, rfl, fun d => ?_⟩
  · unfold create_context_from_documents assembleSpec
    exact pyJoin_enumFrom docs 1
  · have h : "[Document " ++ toString (1 : Nat) ++ " - " = "[Document 1 - " := rfl
    show "[Document " ++ toString (1 : Nat) ++ " - " ++ sourceOf d ++ "]\n"
        ++ pyStrip d.content = _
    rw [h]

/- ---------------------------------------------------------------------
C6 : search failures degrade to the empty result
--------------------------------------------------------------------- -/

/-- C6: an embedding-provider or index failure raised inside a search is
caught by the store manager and the call returns the empty sequence, and a
search against the empty store (no index loaded) likewise returns the empty
sequence rather than an error. -/
theorem search_failure_yields_empty (db : VDB)
    (fs : List Doc → Except String (List (Doc × ℚ)))
    (fd : List Doc → Except String (List Doc)) (e1 e2 : String)
    (h1 : ∀ docs, fs docs = Except.error e1)
    (h2 : ∀ docs, fd docs = Except.error e2) :
    search_with_scores db fs = []
      ∧ search_similar_documents db fd = []
      ∧ ∀ fs' fd', search_with_scores { db with vector_store := none } fs' = []
          ∧ search_similar_documents { db with vector_store := none } fd' = [] := by
  refine ⟨?_, ?_, fun fs' fd' => ⟨rfl, rfl⟩⟩
  · cases hv : db.vector_store with
    | none => simp [search_with_scores, hv]
    | some docs => simp [search_with_scores, hv, h1]
  · cases hv : db.vector_store with
    | none => simp [search_similar_documents, hv]
    | some docs => simp [search_similar_documents, hv, h2]

/-- Witness for C6 at a concrete one-document store whose search raises. -/
theorem search_failure_yields_empty_witness :
    search_with_scores ⟨some [⟨"c", []⟩], some [⟨"c", []⟩]⟩
        (fun _ => Except.error "embedding failure") = []
      ∧ search_similar_documents ⟨some [⟨"c", []⟩], some [⟨"c", []⟩]⟩
        (fun _ => Except.error "index failure") = [] := by
  have h := search_failure_yields_empty ⟨some [⟨"c", []⟩], some [⟨"c", []⟩]⟩
    (fun _ => Except.error "embedding failure")
    (fun _ => Except.error "index failure")
    "embedding failure" "index failure" (fun _ => rfl) (fun _ => rfl)
  exact ⟨h.1, h.2.1⟩

/- ---------------------------------------------------------------------
C7 : inserting the empty sequence is a no-op returning false
--------------------------------------------------------------------- -/

/-- C7: `save_documents` on the empty document list returns `false` and
leaves the store state untouched, so doing it twice (with any success flags)
leaves `get_vector_store_info` unchanged. -/
theorem insert_empty_noop (e1 s1 e2 s2 : Bool) (db : VDB) :
    save_documents e1 s1 db [] = (db, false)
      ∧ save_documents e2 s2 (save_documents e1 s1 db []).1 [] = (db, false)
      ∧ get_vector_store_info (save_documents e2 s2 (save_documents e1 s1 db []).1 []).1
          = get_vector_store_info db := by
  simp [save_documents]

/- ---------------------------------------------------------------------
C8 : parse_input validation
--------------------------------------------------------------------- -/

theorem dropWhile_replicate_of_neg (p : Char → Bool) (c : Char) (h : p c = false) :
    ∀ n, (List.replicate n c).dropWhile p = List.replicate n c := by
  intro n
  cases n with
  | zero => rfl
  | succ m => simp [List.replicate_succ, List.dropWhile_cons, h]

theorem pyStrip_replicate (c : Char) (h : c.isWhitespace = false) (n : Nat) :
    pyStrip ⟨List.replicate n c⟩ = ⟨List.replicate n c⟩ := by
  unfold pyStrip
  rw [dropWhile_replicate_of_neg _ c h, List.reverse_replicate,
    dropWhile_replicate_of_neg _ c h, List.reverse_replicate]

/-- C8: `parse_question_input` rejects an empty or whitespace-only question,
and a question longer than 10,000 characters, by setting the error field and
returning the state (it is a total function, so it never throws); a question
of length exactly 10,000 that is not whitespace-only is accepted with no
error set. -/
theorem parse_input_validation (elapsed : ℚ) (s : ConversationState) :
    (s.question = "" ∨ pyStrip s.question = "" →
        parse_question_input elapsed s
          = { s with error := some "Invalid question: empty or whitespace only" })
      ∧ (pyStrip s.question ≠ "" ∧ s.question.length > 10000 →
          parse_question_input elapsed s
            = { s with error := some "Question too long (max 10,000 characters)" })
      ∧ (pyStrip s.question ≠ "" ∧ s.question.length = 10000 →
          parse_question_input elapsed s = { s with processing_time := some elapsed }
            ∧ (parse_question_input elapsed s).error = s.error) := by
  refine ⟨fun h => ?_, fun h => ?_, fun h => ?_⟩
  · rw [parse_question_input, if_pos h]
  · rw [parse_question_input, if_neg (fun hc => hc.elim (fun he => h.1 (by rw [he]; rfl)) h.1),
      if_pos h.2]
  · have hne : ¬ (s.question = "" ∨ pyStrip s.question = "") :=
      fun hc => hc.elim (fun he => h.1 (by rw [he]; rfl)) h.1
    have hlen : ¬ (s.question.length > 10000) := by omega
    rw [parse_question_input, if_neg hne, if_neg hlen]
    exact ⟨rfl, rfl⟩

/-- A 10,000-character question consisting of the letter a. -/
def bigQuestion : String := ⟨List.replicate 10000 'a'⟩

/-- Witness for C8: the 10,000-character non-whitespace question is accepted
with no error set. -/
theorem parse_input_validation_witness :
    pyStrip bigQuestion ≠ "" ∧ bigQuestion.length = 10000
      ∧ parse_question_input 0 { question := bigQuestion }
          = { question := bigQuestion, processing_time := some (0 : ℚ) }
      ∧ (parse_question_input 0 { question := bigQuestion }).error = none := by
  have hstrip : pyStrip bigQuestion = bigQuestion := pyStrip_replicate 'a' rfl 10000
  have hlen : bigQuestion.length = 10000 := by
    show (List.replicate 10000 'a').length = 10000
    exact List.length_replicate 10000 'a'
  have hne : pyStrip bigQuestion ≠ "" := by
    rw [hstrip]
    intro hc
    have h0 : (10000 : Nat) = 0 := by rw [← hlen, hc]; rfl
    exact absurd h0 (by decide)
  have h := (parse_input_validation 0 { question := bigQuestion }).2.2 ⟨hne, hlen⟩
  exact ⟨hne, hlen, h.1, by rw [h.2]⟩

/- ---------------------------------------------------------------------
C9 : generate_response normalization
--------------------------------------------------------------------- -/

/-- C9 (counterexample to the claim as stated): on a state with no error, a
bare `None` model output is rendered by `str(response)` as the four-letter
string "None", which survives stripping, so the response is set to "None"
and not to the fixed apology the claim prescribes. -/
theorem generate_response_none_counterexample :
    (generate_response LLMOutput.noneObj { question := "q" }).response = some "None"
      ∧ (generate_response LLMOutput.noneObj { question := "q" }).response
          ≠ some apologyText := by
  constructor
  · rfl
  · decide

theorem normalizeResponse_response_ne (s : ConversationState) (t r : String)
    (hr : (normalizeResponse s t).response = some r) : r ≠ "" := by
  unfold normalizeResponse at hr
  by_cases hc : pyStrip t = ""
  · rw [if_pos hc] at hr
    simp only at hr
    rw [Option.some_inj] at hr
    rw [← hr]
    decide
  · rw [if_neg hc] at hr
    simp only at hr
    rw [Option.some_inj] at hr
    rw [← hr]
    exact hc

/-- C9 (amended): if the error field is already set the stage returns the
state unchanged, independently of the model output (so the model call result
is irrelevant); otherwise a model output whose text normalizes and trims to
the empty string yields the fixed apology, a bare `None` output yields the
literal text "None", and whenever the stage sets a response at all it is a
non-empty string. -/
theorem generate_response_normalizes (s : ConversationState) :
    (s.error.isSome = true →
        ∀ out out', generate_response out s = s
          ∧ generate_response out s = generate_response out' s)
      ∧ (s.error = none →
          (∀ t, pyStrip t = "" →
              generate_response (LLMOutput.text t) s = { s with response := some apologyText }
                ∧ generate_response (LLMOutput.message (some t)) s
                    = { s with response := some apologyText })
            ∧ generate_response LLMOutput.noneObj s = { s with response := some "None" }
            ∧ ∀ out r, (generate_response out s).response = some r →
                s.response = some r ∨ r ≠ "") := by
  constructor
  · intro h out out'
    exact ⟨by simp [generate_response, h], by simp [generate_response, h]⟩
  · intro h
    have hs : s.error.isSome = false := by rw [h]; rfl
    have hN : pyStrip "None" = "None" := rfl
    have hN2 : ¬ (pyStrip "None" = "") := by decide
    refine ⟨fun t ht => ?_, ?_, fun out r hr => ?_⟩
    · constructor
      · simp [generate_response, hs, normalizeResponse, ht]
      · simp [generate_response, hs, normalizeResponse, ht]
    · simp [generate_response, hs, normalizeResponse, hN2, hN]
    · cases out with
      | raises e =>
          simp [generate_response, hs] at hr
          exact Or.inl hr
      | noneObj =>
          refine Or.inr ?_
          simp [generate_response, hs, normalizeResponse, hN2, hN] at hr
          rw [← hr]
          decide
      | text t => exact Or.inr (normalizeResponse_response_ne s t r
          (by simpa [generate_response, hs] using hr))
      | other t => exact Or.inr (normalizeResponse_response_ne s t r
          (by simpa [generate_response, hs] using hr))
      | message content =>
          cases content with
          | none =>
              simp [generate_response, hs] at hr
              exact Or.inl hr
          | some c => exact Or.inr (normalizeResponse_response_ne s c r
              (by simpa [generate_response, hs] using hr))

/-- Witness for C9 (amended): with an error already set the stage is the
identity whatever the model produced, and with no error set a whitespace
model output becomes the fixed apology. -/
theorem generate_response_normalizes_witness :
    generate_response (LLMOutput.text "x") { question := "q", error := some "E" }
        = { question := "q", error := some "E" }
      ∧ generate_response (LLMOutput.text " ") { question := "q" }
          = { question := "q", response := some apologyText } := by
  constructor
  · exact ((generate_response_normalizes { question := "q", error := some "E" }).1
      rfl (LLMOutput.text "x") LLMOutput.noneObj).1
  · exact (((generate_response_normalizes { question := "q" }).2 rfl).1 " " (by decide)).1

/- ---------------------------------------------------------------------
Source aggregation lemmas
--------------------------------------------------------------------- -/

theorem mem_insertUnique (acc : List String) (s x : String) :
    x ∈ insertUnique acc s ↔ x ∈ acc ∨ x = s := by
  unfold insertUnique
  by_cases h : s ∈ acc
  · rw [if_pos h]
    exact ⟨Or.inl, fun hc => hc.elim id (fun he => he ▸ h)⟩
  · rw [if_neg h]
    simp

theorem mem_foldl_insertUnique (docs : List Doc) :
    ∀ acc x, (x ∈ docs.foldl (fun a d => insertUnique a (sourceOf d)) acc
      ↔ x ∈ acc ∨ ∃ d ∈ docs, sourceOf d = x) := by
  induction docs with
  | nil => simp
  | cons d rest ih =>
      intro acc x
      rw [List.foldl_cons, ih, mem_insertUnique]
      constructor
      · rintro ((hx | hx) | ⟨d', hd', hs⟩)
        · exact Or.inl hx
        · exact Or.inr ⟨d, List.mem_cons_self d rest, hx.symm⟩
        · exact Or.inr ⟨d', List.mem_cons_of_mem d hd', hs⟩
      · rintro (hx | ⟨d', hd', hs⟩)
        · exact Or.inl (Or.inl hx)
        · rcases List.mem_cons.mp hd' with he | hm
          · exact Or.inl (Or.inr (he ▸ hs.symm))
          · exact Or.inr ⟨d', hm, hs⟩

theorem mem_sourcesOf (docs : List Doc) (x : String) :
    x ∈ sourcesOf docs ↔ ∃ d ∈ docs, sourceOf d = x := by
  rw [sourcesOf, mem_foldl_insertUnique]
  simp

theorem map_filename_mk (l : List String) (g h : String → Nat) :
    (l.map (fun s =>
      ({ filename := s, chunk_count := g s, total_characters := h s } : DocumentSummary))).map
        DocumentSummary.filename = l := by
  induction l with
  | nil => rfl
  | cons a t ih => simp only [List.map_cons, ih]

theorem get_all_documents_filenames (db : VDB) (docs : List Doc)
    (hdb : db.vector_store = some docs) :
    (get_all_documents db).map DocumentSummary.filename = sourcesOf docs := by
  simp only [get_all_documents, hdb]
  exact map_filename_mk (sourcesOf docs) _ _

/- ---------------------------------------------------------------------
C5 : delete_by_source semantics
--------------------------------------------------------------------- -/

/-- C5 (amended): over a store whose chunks all carry a `source_file`
metadata key, `delete_documents_by_source f` returns `false` and leaves the
state unchanged when no stored chunk has `source_file = f`; whenever it
returns `true` the surviving in-memory chunks are exactly those whose
`source_file` differs from `f` (the store being cleared when none survive),
the reported `total_chunks` drops by exactly the number of chunks that
belonged to `f`, and `f` no longer appears in the document listing; deleting
the last remaining source flips the reported status from "active" to
"empty".  (Without the `source_file`-key condition the listing clause can
fail for `f = "Unknown"`, see the counterexample.) -/
theorem delete_by_source_behavior (rebuildOk saveOk clearOk : Bool) (db : VDB)
    (docs : List Doc) (f : String) (hdb : db.vector_store = some docs) :
    ((∀ d ∈ docs, ¬ (dictGet d.metadata "source_file" = some f)) →
        delete_documents_by_source rebuildOk saveOk clearOk db f = (db, false))
      ∧ ((delete_documents_by_source rebuildOk saveOk clearOk db f).2 = true →
          ((delete_documents_by_source rebuildOk saveOk clearOk db f).1.vector_store
              = some (docs.filter (fun d => !(dictGet d.metadata "source_file" == some f)))
            ∨ ((delete_documents_by_source rebuildOk saveOk clearOk db f).1.vector_store = none
                ∧ docs.filter (fun d => !(dictGet d.metadata "source_file" == some f)) = []))
          ∧ (get_vector_store_info (delete_documents_by_source rebuildOk saveOk clearOk db f).1).total_chunks
              = docs.length
                - (docs.filter (fun d => dictGet d.metadata "source_file" == some f)).length
          ∧ ((∀ d ∈ docs, (dictGet d.metadata "source_file").isSome) →
              f ∉ (get_all_documents (delete_documents_by_source rebuildOk saveOk clearOk db f).1).map
                DocumentSummary.filename))
      ∧ ((docs ≠ [] ∧ ∀ d ∈ docs, dictGet d.metadata "source_file" = some f) →
          (delete_documents_by_source rebuildOk saveOk clearOk db f).2 = true →
            (get_vector_store_info db).status = "active"
              ∧ (get_vector_store_info (delete_documents_by_source rebuildOk saveOk clearOk db f).1).status
                  = "empty") := by
  have key : delete_documents_by_source rebuildOk saveOk clearOk db f
      = (if docs.length
            - (docs.filter (fun d => !(dictGet d.metadata "source_file" == some f))).length = 0
         then (db, false)
         else if (docs.filter (fun d => !(dictGet d.metadata "source_file" == some f))).isEmpty
         then clear_vector_store clearOk db
         else if !rebuildOk then (db, false)
         else if saveOk then
           ({ db with
               vector_store := some (docs.filter (fun d => !(dictGet d.metadata "source_file" == some f)))
               disk := some (docs.filter (fun d => !(dictGet d.metadata "source_file" == some f))) }, true)
         else ({ db with
               vector_store := some (docs.filter (fun d => !(dictGet d.metadata "source_file" == some f))) },
           false)) := by
    simp only [delete_documents_by_source, hdb]
  have hsplit := List.length_eq_length_filter_add
    (l := docs) (fun d => dictGet d.metadata "source_file" == some f)
  refine ⟨fun hnone => ?_, fun htrue => ?_, fun hall htrue => ?_⟩
  · have hfil : docs.filter (fun d => !(dictGet d.metadata "source_file" == some f)) = docs := by
      apply List.filter_eq_self.mpr
      intro d hd
      simp only [Bool.not_eq_true', beq_eq_false_iff_ne, ne_eq]
      exact hnone d hd
    rw [key, hfil, if_pos (Nat.sub_self docs.length)]
  · rw [key] at htrue ⊢
    by_cases h0 : docs.length
        - (docs.filter (fun d => !(dictGet d.metadata "source_file" == some f))).length = 0
    · rw [if_pos h0] at htrue
      exact absurd htrue Bool.false_ne_true
    · rw [if_neg h0] at htrue ⊢
      by_cases hemp : (docs.filter (fun d => !(dictGet d.metadata "source_file" == some f))).isEmpty
      · rw [if_pos hemp] at htrue ⊢
        have hclear : clearOk = true := by
          by_contra hc
          rw [clear_vector_store, if_neg hc] at htrue
          exact absurd htrue Bool.false_ne_true
        rw [clear_vector_store, if_pos hclear] at htrue ⊢
        have hnil : docs.filter (fun d => !(dictGet d.metadata "source_file" == some f)) = [] :=
          List.isEmpty_iff.mp hemp
        refine ⟨Or.inr ⟨rfl, hnil⟩, ?_, fun _ => ?_⟩
        · show (0 : Nat) = docs.length
            - (docs.filter (fun d => dictGet d.metadata "source_file" == some f)).length
          have hB : (docs.filter (fun d => !(dictGet d.metadata "source_file" == some f))).length
              = 0 := by rw [hnil]; rfl
          omega
        · exact List.not_mem_nil f
      · rw [if_neg hemp] at htrue ⊢
        have hreb : (!rebuildOk) = false := by
          by_contra hc
          rw [Bool.not_eq_false] at hc
          rw [if_pos hc] at htrue
          exact absurd htrue Bool.false_ne_true
        rw [hreb, if_neg Bool.false_ne_true] at htrue ⊢
        have hsave : saveOk = true := by
          by_contra hc
          rw [if_neg hc] at htrue
          exact absurd htrue Bool.false_ne_true
        rw [if_pos hsave]
        refine ⟨Or.inl rfl, ?_, fun hkeys => ?_⟩
        · show (docs.filter (fun d => !(dictGet d.metadata "source_file" == some f))).length
            = docs.length
              - (docs.filter (fun d => dictGet d.metadata "source_file" == some f)).length
          omega
        · rw [get_all_documents_filenames _ _ rfl, mem_sourcesOf]
          rintro ⟨d, hd, hs⟩
          have hd' := List.mem_filter.mp hd
          have hne : dictGet d.metadata "source_file" ≠ some f := by
            have := hd'.2
            simp only [Bool.not_eq_true', beq_eq_false_iff_ne, ne_eq] at this
            exact this
          rcases Option.isSome_iff_exists.mp (hkeys d hd'.1) with ⟨v, hv⟩
          rw [sourceOf, dictGetD, hv, Option.getD_some] at hs
          exact hne (by rw [hv, hs])
  · have hnil : docs.filter (fun d => !(dictGet d.metadata "source_file" == some f)) = [] := by
      apply List.filter_eq_nil_iff.mpr
      intro d hd
      simp only [Bool.not_eq_true', beq_eq_false_iff_ne, ne_eq, Decidable.not_not]
      exact hall.2 d hd
    have hpos : ¬ (docs.length - ([] : List Doc).length = 0) := by
      intro hc
      simp only [List.length_nil, Nat.sub_zero] at hc
      exact hall.1 (List.length_eq_zero.mp hc)
    rw [key, hnil] at htrue ⊢
    rw [if_neg hpos, if_pos (show ([] : List Doc).isEmpty = true from rfl)] at htrue ⊢
    have hclear : clearOk = true := by
      by_contra hc
      rw [clear_vector_store, if_neg hc] at htrue
      exact absurd htrue Bool.false_ne_true
    rw [clear_vector_store, if_pos hclear]
    exact ⟨by simp [get_vector_store_info, hdb], rfl⟩

/-- First concrete store document, from source a. -/
def wdocA : Doc := ⟨"alpha content", [("source_file", "a")]⟩

/-- Second concrete store document, from source b. -/
def wdocB : Doc := ⟨"beta content", [("source_file", "b")]⟩

/-- Third concrete store document, from source c. -/
def wdocC : Doc := ⟨"gamma content", [("source_file", "c")]⟩

/-- A concrete two-source store whose in-memory and persisted contents agree. -/
def wdb : VDB := ⟨some [wdocA, wdocB], some [wdocA, wdocB]⟩

/-- Witness for C5 at concrete stores: deleting source a from the two-source
store succeeds and leaves exactly source b listed with one chunk; deleting a
missing source returns false unchanged; deleting the only source flips the
status from active to empty. -/
theorem delete_by_source_behavior_witness :
    "a" ∉ (get_all_documents (delete_documents_by_source true true true wdb "a").1).map
        DocumentSummary.filename
      ∧ (get_vector_store_info (delete_documents_by_source true true true wdb "a").1).total_chunks = 1
      ∧ delete_documents_by_source true true true ⟨some [wdocA], some [wdocA]⟩ "b"
          = (⟨some [wdocA], some [wdocA]⟩, false)
      ∧ (get_vector_store_info (⟨some [wdocA], some [wdocA]⟩ : VDB)).status = "active"
      ∧ (get_vector_store_info
          (delete_documents_by_source true true true ⟨some [wdocA], some [wdocA]⟩ "a").1).status
          = "empty" := by
  have h1 := delete_by_source_behavior true true true wdb [wdocA, wdocB] "a" rfl
  have h2 := delete_by_source_behavior true true true ⟨some [wdocA], some [wdocA]⟩ [wdocA] "b" rfl
  have h3 := delete_by_source_behavior true true true ⟨some [wdocA], some [wdocA]⟩ [wdocA] "a" rfl
  refine ⟨(h1.2.1 (by decide)).2.2 (by decide), ?_, h2.1 (by decide), ?_, ?_⟩
  · exact ((h1.2.1 (by decide)).2.1).trans (by decide)
  · exact (h3.2.2 ⟨by decide, by decide⟩ (by decide)).1
  · exact (h3.2.2 ⟨by decide, by decide⟩ (by decide)).2

/-- A document whose explicit source_file is the string "Unknown". -/
def wdocU : Doc := ⟨"u content", [("source_file", "Unknown")]⟩

/-- A document with no source_file metadata key at all. -/
def wdocN : Doc := ⟨"n content", []⟩

/-- C5 (counterexample to the claim as stated, over all store states):
deletion matches on the raw `metadata.get('source_file')` (default `None`)
while the listing renders a missing key as "Unknown", so deleting
"Unknown" from a store holding one chunk explicitly sourced "Unknown" and
one chunk with no source key succeeds, yet "Unknown" still appears in
`list_documents()`. -/
theorem delete_unknown_counterexample :
    (delete_documents_by_source true true true
        ⟨some [wdocU, wdocN], some [wdocU, wdocN]⟩ "Unknown").2 = true
      ∧ "Unknown" ∈ (get_all_documents (delete_documents_by_source true true true
          ⟨some [wdocU, wdocN], some [wdocU, wdocN]⟩ "Unknown").1).map
          DocumentSummary.filename := by
  decide

/- ---------------------------------------------------------------------
C1 : the delete rebuild swaps the in-memory index before persisting
--------------------------------------------------------------------- -/

/-- C1 (code refutation at the failing input): deleting source a from the
two-source store when `save_local` fails returns `false` and leaves the
persisted index untouched, but the active in-memory index has already been
swapped to the rebuilt one, so subsequent stats/listing observe the
post-delete state while disk holds the pre-delete index — the swap is not
deferred until persistence succeeds. -/
theorem delete_swap_precedes_persist :
    delete_documents_by_source true false true wdb "a"
        = (⟨some [wdocB], some [wdocA, wdocB]⟩, false)
      ∧ (⟨some [wdocB], some [wdocA, wdocB]⟩ : VDB).vector_store ≠ wdb.vector_store
      ∧ (get_vector_store_info (⟨some [wdocB], some [wdocA, wdocB]⟩ : VDB)).total_chunks = 1
      ∧ (get_all_documents (⟨some [wdocB], some [wdocA, wdocB]⟩ : VDB)).map
          DocumentSummary.filename = ["b"] := by
  decide

/- ---------------------------------------------------------------------
C10 : insertion into a non-empty store is not atomic on save failure
--------------------------------------------------------------------- -/

/-- C10: when the store already holds documents and persisting fails after
the new chunks are merged into the in-memory index, `save_documents` returns
`false` yet the merged chunks stay in the active in-memory index — visible
to subsequent search, listing and stats — while the disk copy is unchanged. -/
theorem insert_save_failure_visible (db : VDB) (old documents : List Doc)
    (hdb : db.vector_store = some old) (hne : documents ≠ []) :
    save_documents true false db documents
        = ({ db with vector_store := some (old ++ documents) }, false)
      ∧ (get_vector_store_info (save_documents true false db documents).1).total_chunks
          = old.length + documents.length
      ∧ (save_documents true false db documents).1.disk = db.disk
      ∧ get_all_documents (save_documents true false db documents).1
          = get_all_documents ⟨some (old ++ documents), db.disk⟩
      ∧ ∀ fs, search_with_scores (save_documents true false db documents).1 fs
          = (match fs (old ++ documents) with
              | Except.error _ => []
              | Except.ok results => results) := by
  have hempty : documents.isEmpty = false := by
    cases documents with
    | nil => exact absurd rfl hne
    | cons d ds => rfl
  have hsd : save_documents true false db documents
      = ({ db with vector_store := some (old ++ documents) }, false) := by
    simp [save_documents, hempty, hdb]
  refine ⟨hsd, ?_, ?_, ?_, fun fs => ?_⟩
  · rw [hsd]
    simp [get_vector_store_info]
  · rw [hsd]
  · rw [hsd]
  · rw [hsd]
    rfl

/-- Witness for C10 at the concrete two-source store with one new chunk. -/
theorem insert_save_failure_visible_witness :
    save_documents true false wdb [wdocC]
        = ({ wdb with vector_store := some [wdocA, wdocB, wdocC] }, false)
      ∧ (get_vector_store_info (save_documents true false wdb [wdocC]).1).total_chunks = 3
      ∧ (save_documents true false wdb [wdocC]).1.disk = some [wdocA, wdocB] := by
  have h := insert_save_failure_visible wdb [wdocA, wdocB] [wdocC] rfl (by decide)
  exact ⟨h.1, h.2.1.trans (by decide), h.2.2.1.trans (by decide)⟩

/- ---------------------------------------------------------------------
Decimal representation: Nat.repr is injective
--------------------------------------------------------------------- -/

/-- The decimal digit characters of a number, most significant first. -/
def decChars (n : Nat) : List Char :=
  if _h : n < 10 then [Nat.digitChar n]
  else decChars (n / 10) ++ [Nat.digitChar (n % 10)]
decreasing_by
  exact Nat.div_lt_self (by omega) (by omega)

theorem decChars_lt {n : Nat} (h : n < 10) : decChars n = [Nat.digitChar n] := by
  rw [decChars, dif_pos h]

theorem decChars_ge {n : Nat} (h : ¬ n < 10) :
    decChars n = decChars (n / 10) ++ [Nat.digitChar (n % 10)] := by
  rw [decChars, dif_neg h]

theorem decChars_ne_nil (n : Nat) : decChars n ≠ [] := by
  by_cases h : n < 10
  · rw [decChars_lt h]
    simp
  · rw [decChars_ge h]
    simp

theorem toDigitsCore_eq_decChars :
    ∀ fuel n ds, n < fuel → Nat.toDigitsCore 10 fuel n ds = decChars n ++ ds := by
  intro fuel
  induction fuel with
  | zero => intro n ds h; exact absurd h (Nat.not_lt_zero n)
  | succ fuel ih =>
      intro n ds h
      show (if n / 10 = 0 then Nat.digitChar (n % 10) :: ds
        else Nat.toDigitsCore 10 fuel (n / 10) (Nat.digitChar (n % 10) :: ds))
          = decChars n ++ ds
      by_cases h0 : n / 10 = 0
      · have hn : n < 10 := (Nat.div_eq_zero_iff (by omega)).mp h0
        rw [if_pos h0, decChars_lt hn, Nat.mod_eq_of_lt hn]
        rfl
      · have hnge : ¬ n < 10 := fun hc => h0 (Nat.div_eq_of_lt hc)
        have hpos : 0 < n := by
          by_contra hc
          exact h0 (by omega)
        have hdiv : n / 10 < fuel := by
          have h1 : n / 10 < n := Nat.div_lt_self hpos (by omega)
          omega
        rw [if_neg h0, ih (n / 10) (Nat.digitChar (n % 10) :: ds) hdiv, decChars_ge hnge,
          List.append_assoc]
        rfl

theorem repr_eq_decChars (n : Nat) : Nat.repr n = (decChars n).asString := by
  show (Nat.toDigitsCore 10 (n + 1) n []).asString = (decChars n).asString
  rw [toDigitsCore_eq_decChars (n + 1) n [] (Nat.lt_succ_self n), List.append_nil]

theorem digitChar_inj : ∀ a, a < 10 → ∀ b, b < 10 →
    Nat.digitChar a = Nat.digitChar b → a = b := by
  decide

theorem decChars_inj : ∀ m n : Nat, decChars m = decChars n → m = n := by
  intro m
  induction m using Nat.strong_induction_on with
  | _ m ih =>
      intro n h
      by_cases hm : m < 10 <;> by_cases hn : n < 10
      · rw [decChars_lt hm, decChars_lt hn] at h
        injection h with h1 _
        exact digitChar_inj m hm n hn h1
      · exfalso
        rw [decChars_lt hm, decChars_ge hn] at h
        have hl : (1 : Nat) = (decChars (n / 10)).length + 1 := by
          simpa using congrArg List.length h
        have h0 : (decChars (n / 10)).length = 0 := by omega
        exact decChars_ne_nil _ (List.length_eq_zero.mp h0)
      · exfalso
        rw [decChars_ge hm, decChars_lt hn] at h
        have hl : (decChars (m / 10)).length + 1 = (1 : Nat) := by
          simpa using congrArg List.length h
        have h0 : (decChars (m / 10)).length = 0 := by omega
        exact decChars_ne_nil _ (List.length_eq_zero.mp h0)
      · rw [decChars_ge hm, decChars_ge hn] at h
        have hinj := List.append_inj' h (by simp)
        have hdig : m % 10 = n % 10 := by
          have h2 := hinj.2
          injection h2 with h21 _
          exact digitChar_inj _ (Nat.mod_lt m (by omega)) _ (Nat.mod_lt n (by omega)) h21
        have hdiv : m / 10 = n / 10 :=
          ih (m / 10) (Nat.div_lt_self (by omega) (by omega)) (n / 10) hinj.1
        omega

theorem nat_repr_inj (m n : Nat) (h : Nat.repr m = Nat.repr n) : m = n := by
  apply decChars_inj
  rw [repr_eq_decChars, repr_eq_decChars] at h
  exact congrArg String.data h

/-- Two chunk ids built from the same filename agree only on equal ordinals. -/
theorem chunkId_inj (fn : String) (j j' : Nat)
    (h : fn ++ "_" ++ toString j = fn ++ "_" ++ toString j') : j = j' := by
  apply nat_repr_inj
  have hd := congrArg String.data h
  simp only [String.data_append] at hd
  have h2 := List.append_cancel_left hd
  exact String.ext h2

/- ---------------------------------------------------------------------
C2 : the chunk-id stamping loop
--------------------------------------------------------------------- -/

/-- The final form of the chunk at position `idx`: its metadata gains
`source_file = filename` and `chunk_id = filename_idx`. -/
def finalizeDoc (filename : String) (d : Doc) (idx : Nat) : Doc :=
  { content := d.content
    metadata := dictInsert (dictInsert d.metadata "source_file" filename) "chunk_id"
      (filename ++ "_" ++ toString idx) }

/-- The chunk list after the metadata loop has processed the first `j`
positions: positions below `j` are finalized, the rest are untouched. -/
def stamped (filename : String) (chunks : List Doc) (j : Nat) : List Doc :=
  List.ofFn (fun i : Fin chunks.length =>
    if (i : Nat) < j then finalizeDoc filename (chunks.get i) i else chunks.get i)

theorem stamped_zero (fn : String) (chunks : List Doc) : stamped fn chunks 0 = chunks := by
  unfold stamped
  have hfun : (fun i : Fin chunks.length =>
      if (i : Nat) < 0 then finalizeDoc fn (chunks.get i) i else chunks.get i) = chunks.get := by
    funext i
    rw [if_neg (Nat.not_lt_zero _)]
  rw [hfun]
  exact List.ofFn_get chunks

theorem length_stamped (fn : String) (chunks : List Doc) (j : Nat) :
    (stamped fn chunks j).length = chunks.length :=
  List.length_ofFn _

theorem getElem_stamped (fn : String) (chunks : List Doc) (j i : Nat)
    (hi : i < chunks.length) (h : i < (stamped fn chunks j).length) :
    (stamped fn chunks j)[i]
      = if i < j then finalizeDoc fn (chunks.get ⟨i, hi⟩) i else chunks.get ⟨i, hi⟩ := by
  unfold stamped
  rw [List.getElem_ofFn]

theorem addMetaStep_of_getElem (fn : String) (st : List Doc) (j : Nat) (d : Doc)
    (h : st[j]? = some d) :
    addMetaStep fn st j
      = (st.set j { d with metadata := dictInsert d.metadata "source_file" fn }).set j
          { content := d.content
            metadata := dictInsert (dictInsert d.metadata "source_file" fn) "chunk_id"
              (fn ++ "_" ++ toString (pyIndex
                (st.set j { d with metadata := dictInsert d.metadata "source_file" fn })
                { d with metadata := dictInsert d.metadata "source_file" fn })) } := by
  simp only [addMetaStep, h]

theorem addMetaStep_stamped (fn : String) (chunks : List Doc) (j : Nat)
    (hj : j < chunks.length)
    (hidj : dictGet (chunks.get ⟨j, hj⟩).metadata "chunk_id" = none) :
    addMetaStep fn (stamped fn chunks j) j = stamped fn chunks (j + 1) := by
  have hjs : j < (stamped fn chunks j).length := by rw [length_stamped]; exact hj
  have hget : (stamped fn chunks j)[j]? = some (chunks.get ⟨j, hj⟩) := by
    rw [List.getElem?_eq_getElem hjs, getElem_stamped fn chunks j j hj hjs,
      if_neg (Nat.lt_irrefl j)]
  rw [addMetaStep_of_getElem fn _ j (chunks.get ⟨j, hj⟩) hget]
  have hidx : pyIndex
      ((stamped fn chunks j).set j
        { chunks.get ⟨j, hj⟩ with metadata := dictInsert (chunks.get ⟨j, hj⟩).metadata "source_file" fn })
      { chunks.get ⟨j, hj⟩ with metadata := dictInsert (chunks.get ⟨j, hj⟩).metadata "source_file" fn }
      = j := by
    unfold pyIndex
    have hlen : j < ((stamped fn chunks j).set j
        { chunks.get ⟨j, hj⟩ with
          metadata := dictInsert (chunks.get ⟨j, hj⟩).metadata "source_file" fn }).length := by
      rw [List.length_set, length_stamped]
      exact hj
    rw [List.findIdx_eq hlen]
    constructor
    · rw [List.getElem_set, if_pos rfl]
      exact docEq_refl _
    · intro i hij
      have hi : i < chunks.length := by omega
      rw [List.getElem_set, if_neg (by omega : ¬ j = i),
        getElem_stamped fn chunks j i hi (by rw [length_stamped]; exact hi), if_pos hij]
      apply docEq_eq_false _ _ "chunk_id"
      show dictGet (dictInsert (dictInsert (chunks.get ⟨i, hi⟩).metadata "source_file" fn) "chunk_id"
          (fn ++ "_" ++ toString i)) "chunk_id"
        ≠ dictGet (dictInsert (chunks.get ⟨j, hj⟩).metadata "source_file" fn) "chunk_id"
      rw [dictGet_dictInsert_self,
        dictGet_dictInsert_other _ _ _ _ (by decide : "chunk_id" ≠ "source_file"), hidj]
      simp
  rw [hidx, List.set_set]
  apply List.ext_getElem
  · rw [List.length_set, length_stamped, length_stamped]
  · intro i h1 h2
    have hi : i < chunks.length := by
      rw [List.length_set, length_stamped] at h1
      exact h1
    rw [List.getElem_set]
    by_cases hji : j = i
    · subst hji
      rw [if_pos rfl, getElem_stamped fn chunks (j + 1) j hj h2, if_pos (Nat.lt_succ_self j)]
      rfl
    · rw [if_neg hji, getElem_stamped fn chunks j i hi (by rw [length_stamped]; exact hi),
        getElem_stamped fn chunks (j + 1) i hi h2]
      by_cases hlt : i < j
      · rw [if_pos hlt, if_pos (by omega)]
      · rw [if_neg hlt, if_neg (by omega)]

theorem addMeta_stamped (fn : String) (chunks : List Doc)
    (hid : ∀ d ∈ chunks, dictGet d.metadata "chunk_id" = none) :
    addMeta fn chunks = stamped fn chunks chunks.length := by
  have hloop : ∀ j, j ≤ chunks.length →
      (List.range j).foldl (addMetaStep fn) chunks = stamped fn chunks j := by
    intro j
    induction j with
    | zero =>
        intro _
        rw [List.range_zero, List.foldl_nil]
        exact (stamped_zero fn chunks).symm
    | succ j ih =>
        intro hj
        have hjlt : j < chunks.length := by omega
        rw [List.range_succ, List.foldl_append, ih (by omega), List.foldl_cons, List.foldl_nil]
        exact addMetaStep_stamped fn chunks j hjlt
          (hid (chunks.get ⟨j, hjlt⟩) (List.getElem_mem hjlt))
  exact hloop chunks.length (Nat.le_refl _)

/-- C2: as long as no incoming chunk already carries a `chunk_id` metadata
key (the text splitter never produces one), the metadata loop of
`process_and_save_vector_store` stamps the chunk at every position `j` with
`chunk_id = filename_j`, the zero-based position in the final split
sequence — also when several chunks have identical content, because the
current chunk has gained `source_file` but not yet `chunk_id` when
`chunks.index` runs, which distinguishes it both from already-stamped
earlier duplicates and from untouched later ones — and distinct positions
always receive distinct chunk ids. -/
theorem chunk_ids_are_positions (filename : String) (chunks : List Doc)
    (hid : ∀ d ∈ chunks, dictGet d.metadata "chunk_id" = none) :
    (addMeta filename chunks).length = chunks.length
      ∧ (∀ j, j < chunks.length →
          ∃ d, (addMeta filename chunks)[j]? = some d
            ∧ dictGet d.metadata "chunk_id" = some (filename ++ "_" ++ toString j)
            ∧ dictGet d.metadata "source_file" = some filename)
      ∧ ∀ j j' d d', j < chunks.length → j' < chunks.length → j ≠ j' →
          (addMeta filename chunks)[j]? = some d →
          (addMeta filename chunks)[j']? = some d' →
          dictGet d.metadata "chunk_id" ≠ dictGet d'.metadata "chunk_id" := by
  rw [addMeta_stamped filename chunks hid]
  have hval : ∀ j (hj : j < chunks.length),
      (stamped filename chunks chunks.length)[j]? = some (finalizeDoc filename (chunks.get ⟨j, hj⟩) j) := by
    intro j hj
    have hjs : j < (stamped filename chunks chunks.length).length := by
      rw [length_stamped]; exact hj
    rw [List.getElem?_eq_getElem hjs,
      getElem_stamped filename chunks chunks.length j hj hjs, if_pos hj]
  refine ⟨length_stamped _ _ _, fun j hj => ?_, fun j j' d d' hj hj' hne hd hd' => ?_⟩
  · refine ⟨finalizeDoc filename (chunks.get ⟨j, hj⟩) j, hval j hj, ?_, ?_⟩
    · exact dictGet_dictInsert_self _ _ _
    · rw [show (finalizeDoc filename (chunks.get ⟨j, hj⟩) j).metadata
          = dictInsert (dictInsert (chunks.get ⟨j, hj⟩).metadata "source_file" filename) "chunk_id"
            (filename ++ "_" ++ toString j) from rfl,
        dictGet_dictInsert_other _ _ _ _ (by decide : "source_file" ≠ "chunk_id"),
        dictGet_dictInsert_self]
  · rw [hval j hj] at hd
    rw [hval j' hj'] at hd'
    have hd1 : d = finalizeDoc filename (chunks.get ⟨j, hj⟩) j := by
      injection hd.symm
    have hd2 : d' = finalizeDoc filename (chunks.get ⟨j', hj'⟩) j' := by
      injection hd'.symm
    rw [hd1, hd2]
    rw [show (finalizeDoc filename (chunks.get ⟨j, hj⟩) j).metadata
        = dictInsert (dictInsert (chunks.get ⟨j, hj⟩).metadata "source_file" filename) "chunk_id"
          (filename ++ "_" ++ toString j) from rfl,
      show (finalizeDoc filename (chunks.get ⟨j', hj'⟩) j').metadata
        = dictInsert (dictInsert (chunks.get ⟨j', hj'⟩).metadata "source_file" filename) "chunk_id"
          (filename ++ "_" ++ toString j') from rfl,
      dictGet_dictInsert_self, dictGet_dictInsert_self]
    intro hc
    rw [Option.some_inj] at hc
    exact hne (chunkId_inj filename j j' hc)

/-- Witness for C2 on a chunk sequence with duplicate content: the duplicate
at position 2 still receives chunk id f_2 (not f_0), and the ids at the
duplicate positions 0 and 2 differ. -/
theorem chunk_ids_are_positions_witness :
    (∃ d, (addMeta "f" [⟨"dup", []⟩, ⟨"other", []⟩, ⟨"dup", []⟩])[2]? = some d
        ∧ dictGet d.metadata "chunk_id" = some "f_2"
        ∧ dictGet d.metadata "source_file" = some "f")
      ∧ ∀ d d', (addMeta "f" [⟨"dup", []⟩, ⟨"other", []⟩, ⟨"dup", []⟩])[0]? = some d →
          (addMeta "f" [⟨"dup", []⟩, ⟨"other", []⟩, ⟨"dup", []⟩])[2]? = some d' →
          dictGet d.metadata "chunk_id" ≠ dictGet d'.metadata "chunk_id" := by
  have h := chunk_ids_are_positions "f" [⟨"dup", []⟩, ⟨"other", []⟩, ⟨"dup", []⟩]
    (by decide)
  constructor
  · obtain ⟨d, h1, h2, h3⟩ := h.2.1 2 (by decide)
    exact ⟨d, h1, by rw [h2]; rfl, h3⟩
  · intro d d' hd hd'
    exact h.2.2 0 2 d d' (by decide) (by decide) (by decide) hd hd'

end RAG
